import Mathlib

/-!
Shallow embedding of the rope-and-enemies simulation in src/main.rs.

f32 coordinates are idealized as real numbers.  Division by zero in ℝ is
Lean's junk value 0 where IEEE 754 arithmetic produces NaN; every theorem
that turns on that difference says so in its statement or doc comment.
Rust's in-place index loops are modelled by folds over index lists using
List.set / List.getD (out-of-range access, which panics in Rust, reads the
default value 0 here; all reachable states stay in range).
-/

/-- 2D vector (nannou `Point2` / `Vector2`). -/
@[ext]
structure V2 where
  x : ℝ
  y : ℝ


instance : Zero V2 := ⟨⟨0, 0⟩⟩
instance : Add V2 := ⟨fun a b => ⟨a.x + b.x, a.y + b.y⟩⟩
instance : Sub V2 := ⟨fun a b => ⟨a.x - b.x, a.y - b.y⟩⟩
instance : Neg V2 := ⟨fun a => ⟨-a.x, -a.y⟩⟩
instance : SMul ℝ V2 := ⟨fun t v => ⟨t * v.x, t * v.y⟩⟩
instance : Inhabited V2 := ⟨0⟩

/-- Euclidean length, as computed by the vector library's `length`. -/
noncomputable def V2.len (v : V2) : ℝ := Real.sqrt (v.x ^ 2 + v.y ^ 2)

/-- The library's `normalize`: componentwise division by the length.  On a
zero vector IEEE 754 yields NaN; the real-number idealization yields the
junk value `0 / 0 = 0`. -/
noncomputable def V2.normalize (v : V2) : V2 := ⟨v.x / v.len, v.y / v.len⟩

/-- The library's `distance`: length of the difference. -/
noncomputable def V2.dist (a b : V2) : ℝ := (a - b).len


/-- Color; cosmetic, carried only for faithfulness. -/
structure Rgba where
  r : ℝ
  g : ℝ
  b : ℝ
  a : ℝ

/-- A viewport rectangle (nannou `Rect`), by its four edges. -/
structure RectR where
  left : ℝ
  right : ℝ
  bottom : ℝ
  top : ℝ


/-- Width `w()` of a rect. -/
noncomputable def RectR.w (r : RectR) : ℝ := r.right - r.left

/-- Height `h()` of a rect. -/
noncomputable def RectR.h (r : RectR) : ℝ := r.top - r.bottom


/-- The rope: joint positions, previous positions, rest segment length,
visual thickness and color. -/
structure Rope where
  points : List V2
  prev_points : List V2
  segment_length : ℝ
  thickness : ℝ
  color : Rgba

/-- `Rope::new`: evenly spaced joints from `start` towards `end_`. -/
noncomputable def Rope.new (start end_ : V2) (count : ℕ) : Rope :=
  let length := V2.dist start end_
  let segment_length := length / ((count : ℝ) - 1)
  let direction := (end_ - start).normalize
  let points := (List.range count).map fun i : ℕ => start + (segment_length * (i : ℝ)) • direction
  { points := points
    prev_points := points
    segment_length := segment_length
    thickness := 4
    color := ⟨1, 1, 1, 1⟩ }

/-- One body of the Verlet loop in `update_rope` at index `i`: infer the
velocity, store the old position in `prev_points`, advance `points`. -/
noncomputable def verletStep (s : List V2 × List V2) (i : ℕ) : List V2 × List V2 :=
  let current := s.1.getD i 0
  let prev := s.2.getD i 0
  let velocity := current - prev
  let next_position := current + velocity
  (s.1.set i next_position, s.2.set i current)

/-- One pass body of `constrain_points` for the adjacent pair `(i, i+1)`:
the full corrective offset is subtracted from joint `i` (unless `i = 0`)
and added to joint `i+1`. -/
noncomputable def constrainPair (segment_length : ℝ) (pts : List V2) (i : ℕ) : List V2 :=
  let point_a := pts.getD i 0
  let point_b := pts.getD (i + 1) 0
  let delta := point_b - point_a
  let distance := delta.len
  let difference := segment_length - distance
  let correction := (difference / 1.2) • delta.normalize
  let pts' := if i ≠ 0 then pts.set i (point_a - correction) else pts
  pts'.set (i + 1) (point_b + correction)

/-- One full relaxation pass over every adjacent pair, in index order with
in-place (Gauss–Seidel) updates. -/
noncomputable def constrainPass (segment_length : ℝ) (pts : List V2) : List V2 :=
  (List.range (pts.length - 1)).foldl (constrainPair segment_length) pts

/-- `Rope::constrain_points`: three relaxation passes. -/
noncomputable def Rope.constrain_points (r : Rope) : Rope :=
  { r with points := (constrainPass r.segment_length)^[3] r.points }

/-- The Verlet integration loop of `update_rope`: one pass over the
joints with index ≥ 1 (`for i in 1..len`). -/
noncomputable def verletPass (r : Rope) : Rope :=
  let s := (List.range' 1 (r.points.length - 1)).foldl verletStep (r.points, r.prev_points)
  { r with points := s.1, prev_points := s.2 }

/-- `Rope::update_rope`: one Verlet pass over the joints with index ≥ 1,
then `substeps` calls of `constrain_points`. -/
noncomputable def Rope.update_rope (r : Rope) (substeps : ℤ) : Rope :=
  Rope.constrain_points^[substeps.toNat] (verletPass r)

/-- `Rope::update`. -/
noncomputable def Rope.update (r : Rope) (substeps : ℤ) : Rope :=
  r.update_rope substeps

/-- `Rope::get_segment_midpoints`. -/
noncomputable def Rope.get_segment_midpoints (r : Rope) : List V2 :=
  (List.range (r.points.length - 1)).map fun i =>
    (0.5 : ℝ) • (r.points.getD i 0 + r.points.getD (i + 1) 0)

/-- A mobile circular enemy. -/
structure Enemy where
  position : V2
  prev_position : V2
  radius : ℝ
  color : Rgba

instance : Inhabited Enemy := ⟨⟨0, 0, 0, ⟨0, 0, 0, 0⟩⟩⟩

/-- `Enemy::new`. -/
def Enemy.new (position : V2) (radius : ℝ) (color : Rgba) : Enemy :=
  { position := position, prev_position := position, radius := radius, color := color }

/-- `Enemy::update`: Verlet step plus seek towards `target`. -/
noncomputable def Enemy.update (e : Enemy) (target : V2) (delta_time : ℝ) : Enemy :=
  let current := e.position
  let velocity := current - e.prev_position
  let direction := (target - current).normalize
  { e with prev_position := current, position := current + velocity + delta_time • direction }

/-- Body of the enemy-vs-joint loop in `check_collisions` at joint `i`:
state is (rope points, the current enemy). -/
noncomputable def jointStep (thickness substepsF : ℝ) (s : List V2 × Enemy) (i : ℕ) :
    List V2 × Enemy :=
  let point := s.1.getD i 0
  let enemy := s.2
  let distance := V2.dist enemy.position (point + V2.mk thickness 0)
  if distance < enemy.radius then
    let direction := (enemy.position - point).normalize
    let overlap := (enemy.radius - distance) / substepsF
    (s.1.set i (point - (overlap * 0.5) • direction),
      { enemy with position := enemy.position + (overlap * 0.5) • direction })
  else s

/-- Body of the enemy-vs-segment-midpoint loop in `check_collisions`:
only the enemy is updated. -/
noncomputable def midStep (segment_length substepsF : ℝ) (enemy : Enemy) (midpoint : V2) :
    Enemy :=
  let distance := V2.dist enemy.position midpoint
  let dynamic_thickness := segment_length / 2
  if distance < enemy.radius + dynamic_thickness then
    let direction := (enemy.position - midpoint).normalize
    let overlap := (enemy.radius + dynamic_thickness - distance) / substepsF
    { enemy with position := enemy.position + (overlap * 0.5) • direction }
  else enemy

/-- Processing of one enemy in the first phase of `check_collisions`:
the joint loop (which may move both rope points and the enemy) followed by
the midpoint loop (which may move only the enemy). -/
noncomputable def enemyRopeStep (midpoints : List V2) (thickness segment_length substepsF : ℝ)
    (s : List V2 × List Enemy) (enemy : Enemy) : List V2 × List Enemy :=
  let t := (List.range s.1.length).foldl (jointStep thickness substepsF) (s.1, enemy)
  let e := midpoints.foldl (midStep segment_length substepsF) t.2
  (t.1, s.2 ++ [e])

/-- Body of the enemy-pair loop in `check_collisions` for the index pair
`ij` (with `ij.1 < ij.2`): symmetric push-apart. -/
noncomputable def pairStep (substepsF : ℝ) (es : List Enemy) (i j : ℕ) : List Enemy :=
  let ei := es.getD i default
  let ej := es.getD j default
  let distance := V2.dist ei.position ej.position
  if distance < ei.radius + ej.radius then
    let direction := (ei.position - ej.position).normalize
    let overlap := (ei.radius + ej.radius - distance) / substepsF
    (es.set i { ei with position := ei.position + (overlap * 0.5) • direction }).set j
      { ej with position := ej.position - (overlap * 0.5) • direction }
  else es

/-- The ordered index pairs `(i, j)` with `i < j < n`, as iterated by the
nested enemy-pair loops. -/
def pairIndices (n : ℕ) : List (ℕ × ℕ) :=
  (List.range n).foldr (fun i acc => (((List.range n).drop (i + 1)).map fun j => (i, j)) ++ acc) []

/-- `check_collisions`: midpoints are computed once up front; then for each
enemy the joint loop and the midpoint loop run; then the enemy-pair loop. -/
noncomputable def check_collisions (rope : Rope) (enemies : List Enemy) (substeps : ℤ) :
    Rope × List Enemy :=
  let midpoints := rope.get_segment_midpoints
  let s := enemies.foldl
    (enemyRopeStep midpoints rope.thickness rope.segment_length (substeps : ℝ))
    (rope.points, [])
  let es := (pairIndices s.2.length).foldl (fun l ij => pairStep (substeps : ℝ) l ij.1 ij.2) s.2
  ({ rope with points := s.1 }, es)

/-- The per-game state (`Model`). -/
structure Model where
  enemies : List Enemy
  rope : Rope
  is_dragging : Bool
  drag_index : Option ℕ
  enemy_timer : ℝ
  spawn_delay : ℝ
  camera_position : V2
  score : ℤ

/-- Per-frame external inputs: mouse position, window rect, and the
pseudo-random source, modelled as a stream of unit draws indexed in the
order the code samples them. -/
structure FrameInput where
  mouse : V2
  win : RectR
  rng : ℕ → ℝ

/-- `lerp` on points. -/
noncomputable def lerp (a b : V2) (t : ℝ) : V2 :=
  ⟨a.x + (b.x - a.x) * t, a.y + (b.y - a.y) * t⟩

/-- `lerp_vec2`. -/
noncomputable def lerp_vec2 (a b : V2) (t : ℝ) : V2 :=
  ⟨a.x + (b.x - a.x) * t, a.y + (b.y - a.y) * t⟩

/-- `model`: the initial state (window/view plumbing out of scope). -/
noncomputable def model : Model :=
  { rope := Rope.new ⟨0, 0⟩ ⟨100, 0⟩ 12
    enemies := []
    is_dragging := false
    drag_index := some 0
    enemy_timer := 0
    spawn_delay := 0.5
    camera_position := ⟨0, 0⟩
    score := 0 }

/-- The library sampler `random_range lo hi`, driven by one unit draw. -/
noncomputable def random_range (lo hi draw : ℝ) : ℝ := lo + draw * (hi - lo)

/-- `spawn_enemies`: when the timer has reached the delay, push one enemy
at a window edge and reset the timer.  The draws `rng 0 .. rng 6` are
consumed in the code's sampling order. -/
noncomputable def spawn_enemies (input : FrameInput) (m : Model) : Model :=
  if m.enemy_timer ≥ m.spawn_delay then
    let win := input.win
    let margin : ℝ := 1.0
    let pos : V2 :=
      if input.rng 0 < 0.5 then
        let x := if input.rng 1 < 0.5 then win.left - margin else win.right + margin
        let y := input.rng 2 * win.h
        ⟨x, y⟩
      else
        let x := input.rng 1 * win.w
        let y := if input.rng 2 < 0.5 then win.bottom - margin else win.top + margin
        ⟨x, y⟩
    let radius := random_range 10 20 (input.rng 3)
    let color : Rgba := ⟨input.rng 4, input.rng 5, input.rng 6, 1⟩
    { m with
      enemies := m.enemies ++ [Enemy.new pos radius color]
      enemy_timer := 0 }
  else m

/-- The out-of-bounds test of `despawn_enemies` for one enemy. -/
def enemyOut (win : RectR) (margin : ℝ) (e : Enemy) : Prop :=
  e.position.x + e.radius < win.left - margin ∨
  e.position.x - e.radius > win.right + margin ∨
  e.position.y + e.radius < win.bottom - margin ∨
  e.position.y - e.radius > win.top + margin

noncomputable instance (win : RectR) (margin : ℝ) (e : Enemy) :
    Decidable (enemyOut win margin e) := by
  unfold enemyOut
  infer_instance

/-- The `while` loop of `despawn_enemies`: remove out-of-bounds enemies in
order, bumping the score once per removal. -/
noncomputable def despawnGo (win : RectR) (margin : ℝ) : List Enemy → ℤ → List Enemy × ℤ
  | [], score => ([], score)
  | e :: rest, score =>
    if enemyOut win margin e then despawnGo win margin rest (score + 1)
    else
      let t := despawnGo win margin rest score
      (e :: t.1, t.2)

/-- `despawn_enemies`, with the code's fixed margin 500. -/
noncomputable def despawn_enemies (win : RectR) (m : Model) : Model :=
  let t := despawnGo win 500 m.enemies m.score
  { m with enemies := t.1, score := t.2 }

/-- One iteration of the substep loop inside the frame `update`: rope
update, drag lerp, enemy seek steps, collision resolution. -/
noncomputable def substepCycle (input : FrameInput) (target_position : V2) (substeps : ℤ)
    (delta_time : ℝ) (m : Model) : Model :=
  let rope := m.rope.update substeps
  let rope :=
    if m.is_dragging then
      match m.drag_index with
      | some index =>
        { rope with
          points := rope.points.set index (lerp (rope.points.getD index 0) input.mouse 0.06) }
      | none => rope
    else rope
  let enemies := m.enemies.map fun e => e.update target_position delta_time
  let t := check_collisions rope enemies substeps
  { m with rope := t.1, enemies := t.2 }

/-- The frame `update` function. -/
noncomputable def update (input : FrameInput) (m : Model) : Model :=
  let m1 := { m with enemy_timer := m.enemy_timer + 0.01 }
  let substeps : ℤ := 5
  let delta_time : ℝ := 0.01 / (substeps : ℝ)
  let target_position := m1.rope.points.getD 0 0
  let m2 := (substepCycle input target_position substeps delta_time)^[substeps.toNat] m1
  let m3 := spawn_enemies input m2
  let m4 := despawn_enemies input.win m3
  { m4 with camera_position := lerp_vec2 m4.camera_position target_position 0.1 }

/-- The rope operations of the claim: `update_rope` (Verlet integration,
which also relaxes) and `constrain_points` (pure relaxation), applied in
any order and number. -/
inductive RopeOp where
  | integrate (substeps : ℤ)
  | relax

noncomputable def applyRopeOp (r : Rope) : RopeOp → Rope
  | .integrate s => r.update_rope s
  | .relax => r.constrain_points

noncomputable def applyRopeOps (r : Rope) (ops : List RopeOp) : Rope :=
  ops.foldl applyRopeOp r

/-- Modelled from the spec's words for C3 only, to compare against the
code: the same relaxation pass body, but distributing HALF of the
corrective offset to each of the two joints. -/
noncomputable def constrainPairSpec (segment_length : ℝ) (pts : List V2) (i : ℕ) : List V2 :=
  let point_a := pts.getD i 0
  let point_b := pts.getD (i + 1) 0
  let delta := point_b - point_a
  let distance := delta.len
  let difference := segment_length - distance
  let correction := (difference / 1.2) • delta.normalize
  let pts' := if i ≠ 0 then pts.set i (point_a - (0.5 : ℝ) • correction) else pts
  pts'.set (i + 1) (point_b + (0.5 : ℝ) • correction)

/-- The half-distribution pass described by the spec. -/
noncomputable def constrainPassSpec (segment_length : ℝ) (pts : List V2) : List V2 :=
  (List.range (pts.length - 1)).foldl (constrainPairSpec segment_length) pts

/-- A rect expanded by a margin on all sides (formalizing the spec's
`viewport.expand(margin)`). -/
noncomputable def RectR.expand (r : RectR) (m : ℝ) : RectR :=
  ⟨r.left - m, r.right + m, r.bottom - m, r.top + m⟩

/-- Membership of a point in a rect (spec-side notion). -/
def inRect (p : V2) (r : RectR) : Prop :=
  r.left ≤ p.x ∧ p.x ≤ r.right ∧ r.bottom ≤ p.y ∧ p.y ≤ r.top

/-- The closed disc of radius `rad` about `c` meets the rect (spec-side
notion, stated with squared distances). -/
def circleMeets (c : V2) (rad : ℝ) (r : RectR) : Prop :=
  ∃ p : V2, (p.x - c.x) ^ 2 + (p.y - c.y) ^ 2 ≤ rad ^ 2 ∧ inRect p r

/-- The closed disc of radius `rad` about `c` lies entirely outside the
rect (spec-side notion: every point of the disc misses the rect). -/
def circleOutside (c : V2) (rad : ℝ) (r : RectR) : Prop :=
  ∀ p : V2, (p.x - c.x) ^ 2 + (p.y - c.y) ^ 2 ≤ rad ^ 2 → ¬ inRect p r

/-- The kept sublist of the despawn loop: enemies whose bounding box is
not strictly beyond one side of the expanded window. -/
noncomputable def keepList (win : RectR) (margin : ℝ) : List Enemy → List Enemy
  | [] => []
  | e :: rest =>
    if enemyOut win margin e then keepList win margin rest
    else e :: keepList win margin rest

/-- The frame pipeline of `update` up to (and excluding) the despawn
pass: timer bump, five substep cycles, spawn check. -/
noncomputable def frameBeforeDespawn (input : FrameInput) (m : Model) : Model :=
  let m1 := { m with enemy_timer := m.enemy_timer + 0.01 }
  let substeps : ℤ := 5
  let delta_time : ℝ := 0.01 / (substeps : ℝ)
  let target_position := m1.rope.points.getD 0 0
  let m2 := (substepCycle input target_position substeps delta_time)^[substeps.toNat] m1
  spawn_enemies input m2

/-- A concrete two-joint rope, far from the enemies below. -/
noncomputable def ropeC1 : Rope :=
  ⟨[⟨0, 0⟩, ⟨100, 0⟩], [⟨0, 0⟩, ⟨100, 0⟩], 100, 4, ⟨1, 1, 1, 1⟩⟩

/-- A concrete enemy; the degenerate input uses two copies of it, at
exactly the same position. -/
noncomputable def eC1 : Enemy := ⟨⟨300, 0⟩, ⟨300, 0⟩, 10, ⟨0, 0, 0, 0⟩⟩

@[simp] lemma V2.zero_x : (0 : V2).x = 0 := rfl

@[simp] lemma V2.zero_y : (0 : V2).y = 0 := rfl

@[simp] lemma V2.add_x (a b : V2) : (a + b).x = a.x + b.x := rfl

@[simp] lemma V2.add_y (a b : V2) : (a + b).y = a.y + b.y := rfl

@[simp] lemma V2.sub_x (a b : V2) : (a - b).x = a.x - b.x := rfl

@[simp] lemma V2.sub_y (a b : V2) : (a - b).y = a.y - b.y := rfl

@[simp] lemma V2.neg_x (a : V2) : (-a).x = -a.x := rfl

@[simp] lemma V2.neg_y (a : V2) : (-a).y = -a.y := rfl

@[simp] lemma V2.smul_x (t : ℝ) (v : V2) : (t • v).x = t * v.x := rfl

@[simp] lemma V2.smul_y (t : ℝ) (v : V2) : (t • v).y = t * v.y := rfl

@[simp] lemma V2.mk_x (a b : ℝ) : (V2.mk a b).x = a := rfl

@[simp] lemma V2.mk_y (a b : ℝ) : (V2.mk a b).y = b := rfl

lemma V2.len_nonneg (v : V2) : 0 ≤ v.len := Real.sqrt_nonneg _

lemma verletStep_anchor (s : List V2 × List V2) (i : ℕ) (hi : i ≠ 0) :
    (verletStep s i).1[0]? = s.1[0]? := by
  simp only [verletStep]
  exact List.getElem?_set_ne hi

lemma foldl_verletStep_anchor :
    ∀ (l : List ℕ), (∀ i ∈ l, i ≠ 0) → ∀ st : List V2 × List V2,
      (l.foldl verletStep st).1[0]? = st.1[0]? := by
  intro l
  induction l with
  | nil => intro _ st; rfl
  | cons a t ih =>
    intro h st
    rw [List.foldl_cons, ih fun i hi => h i (List.mem_cons_of_mem a hi),
      verletStep_anchor st a (h a (List.mem_cons_self a t))]

lemma constrainPair_anchor (L : ℝ) (pts : List V2) (i : ℕ) :
    (constrainPair L pts i)[0]? = pts[0]? := by
  simp only [constrainPair]
  rw [List.getElem?_set_ne (by omega : i + 1 ≠ 0)]
  by_cases h : i = 0
  · rw [if_neg fun hn => hn h]
  · rw [if_pos h, List.getElem?_set_ne h]

lemma foldl_constrainPair_anchor (L : ℝ) :
    ∀ (l : List ℕ) (pts : List V2), (l.foldl (constrainPair L) pts)[0]? = pts[0]? := by
  intro l
  induction l with
  | nil => intro pts; rfl
  | cons a t ih => intro pts; rw [List.foldl_cons, ih, constrainPair_anchor]

lemma constrainPass_anchor (L : ℝ) (pts : List V2) :
    (constrainPass L pts)[0]? = pts[0]? := by
  unfold constrainPass
  exact foldl_constrainPair_anchor L _ pts

lemma iterate_constrainPass_anchor (L : ℝ) (n : ℕ) :
    ∀ pts : List V2, ((constrainPass L)^[n] pts)[0]? = pts[0]? := by
  induction n with
  | zero => intro pts; rfl
  | succ n ih => intro pts; rw [Function.iterate_succ_apply, ih, constrainPass_anchor]

lemma constrain_points_anchor (r : Rope) :
    (Rope.constrain_points r).points[0]? = r.points[0]? := by
  unfold Rope.constrain_points
  exact iterate_constrainPass_anchor r.segment_length 3 r.points

lemma iterate_constrain_points_anchor (n : ℕ) :
    ∀ r : Rope, (Rope.constrain_points^[n] r).points[0]? = r.points[0]? := by
  induction n with
  | zero => intro r; rfl
  | succ n ih => intro r; rw [Function.iterate_succ_apply, ih, constrain_points_anchor]

lemma update_rope_anchor (r : Rope) (s : ℤ) :
    (r.update_rope s).points[0]? = r.points[0]? := by
  unfold Rope.update_rope
  rw [iterate_constrain_points_anchor]
  exact foldl_verletStep_anchor _
    (fun i hi => by have := (List.mem_range'_1.mp hi).1; omega) _

/-- C2: for every rope chain and every sequence of `update_rope` /
`constrain_points` passes (no drag), the position of joint 0 (the anchor)
is exactly unchanged: neither pass ever writes index 0. -/
theorem anchor_joint_invariant (ops : List RopeOp) (r : Rope) :
    (applyRopeOps r ops).points[0]? = r.points[0]? := by
  unfold applyRopeOps
  induction ops generalizing r with
  | nil => rfl
  | cons op t ih =>
    rw [List.foldl_cons, ih]
    cases op with
    | integrate s => exact update_rope_anchor r s
    | relax => exact constrain_points_anchor r

lemma verletStep_length1 (s : List V2 × List V2) (i : ℕ) :
    (verletStep s i).1.length = s.1.length := by
  simp [verletStep]

lemma verletStep_length2 (s : List V2 × List V2) (i : ℕ) :
    (verletStep s i).2.length = s.2.length := by
  simp [verletStep]

lemma foldl_verletStep_length :
    ∀ (l : List ℕ) (st : List V2 × List V2),
      (l.foldl verletStep st).1.length = st.1.length ∧
      (l.foldl verletStep st).2.length = st.2.length := by
  intro l
  induction l with
  | nil => intro st; exact ⟨rfl, rfl⟩
  | cons a t ih =>
    intro st
    rw [List.foldl_cons]
    exact ⟨((ih _).1).trans (verletStep_length1 st a),
      ((ih _).2).trans (verletStep_length2 st a)⟩

lemma constrainPair_length (L : ℝ) (pts : List V2) (i : ℕ) :
    (constrainPair L pts i).length = pts.length := by
  simp only [constrainPair]
  by_cases h : i = 0
  · rw [if_neg fun hn => hn h, List.length_set]
  · rw [if_pos h, List.length_set, List.length_set]

lemma foldl_constrainPair_length (L : ℝ) :
    ∀ (l : List ℕ) (pts : List V2), (l.foldl (constrainPair L) pts).length = pts.length := by
  intro l
  induction l with
  | nil => intro pts; rfl
  | cons a t ih => intro pts; rw [List.foldl_cons, ih, constrainPair_length]

lemma constrainPass_length (L : ℝ) (pts : List V2) :
    (constrainPass L pts).length = pts.length := by
  unfold constrainPass
  exact foldl_constrainPair_length L _ pts

lemma iterate_constrainPass_length (L : ℝ) (n : ℕ) :
    ∀ pts : List V2, ((constrainPass L)^[n] pts).length = pts.length := by
  induction n with
  | zero => intro pts; rfl
  | succ n ih => intro pts; rw [Function.iterate_succ_apply, ih, constrainPass_length]

lemma constrain_points_points_length (r : Rope) :
    (Rope.constrain_points r).points.length = r.points.length := by
  unfold Rope.constrain_points
  exact iterate_constrainPass_length r.segment_length 3 r.points

lemma constrain_points_prev (r : Rope) :
    (Rope.constrain_points r).prev_points = r.prev_points := rfl

lemma constrain_points_seg (r : Rope) :
    (Rope.constrain_points r).segment_length = r.segment_length := rfl

lemma iterate_constrain_points_length (n : ℕ) :
    ∀ r : Rope, (Rope.constrain_points^[n] r).points.length = r.points.length ∧
      (Rope.constrain_points^[n] r).prev_points = r.prev_points := by
  induction n with
  | zero => intro r; exact ⟨rfl, rfl⟩
  | succ n ih =>
    intro r
    rw [Function.iterate_succ_apply]
    exact ⟨((ih _).1).trans (constrain_points_points_length r),
      ((ih _).2).trans (constrain_points_prev r)⟩

lemma update_rope_points_length (r : Rope) (s : ℤ) :
    (r.update_rope s).points.length = r.points.length := by
  unfold Rope.update_rope
  rw [(iterate_constrain_points_length _ _).1]
  exact (foldl_verletStep_length _ _).1

lemma update_rope_prev_length (r : Rope) (s : ℤ) :
    (r.update_rope s).prev_points.length = r.prev_points.length := by
  unfold Rope.update_rope
  rw [(iterate_constrain_points_length _ _).2]
  exact congrArg List.length (congrArg Prod.snd rfl) |>.trans
    (foldl_verletStep_length _ _).2

lemma jointStep_length (t f : ℝ) (s : List V2 × Enemy) (i : ℕ) :
    (jointStep t f s i).1.length = s.1.length := by
  simp only [jointStep]
  split
  · rw [List.length_set]
  · rfl

lemma foldl_jointStep_length (t f : ℝ) :
    ∀ (l : List ℕ) (st : List V2 × Enemy),
      (l.foldl (jointStep t f) st).1.length = st.1.length := by
  intro l
  induction l with
  | nil => intro st; rfl
  | cons a u ih => intro st; rw [List.foldl_cons, ih, jointStep_length]

lemma enemyRopeStep_length (mid : List V2) (t L f : ℝ) (s : List V2 × List Enemy) (e : Enemy) :
    (enemyRopeStep mid t L f s e).1.length = s.1.length := by
  simp only [enemyRopeStep]
  exact foldl_jointStep_length t f _ _

lemma foldl_enemyRopeStep_length (mid : List V2) (t L f : ℝ) :
    ∀ (l : List Enemy) (st : List V2 × List Enemy),
      (l.foldl (enemyRopeStep mid t L f) st).1.length = st.1.length := by
  intro l
  induction l with
  | nil => intro st; rfl
  | cons a u ih => intro st; rw [List.foldl_cons, ih, enemyRopeStep_length]

lemma check_collisions_points_length (r : Rope) (es : List Enemy) (s : ℤ) :
    (check_collisions r es s).1.points.length = r.points.length := by
  simp only [check_collisions]
  exact foldl_enemyRopeStep_length _ _ _ _ es _

lemma check_collisions_prev (r : Rope) (es : List Enemy) (s : ℤ) :
    (check_collisions r es s).1.prev_points = r.prev_points := rfl

lemma Rope.update_len_points (r : Rope) (s : ℤ) :
    (r.update s).points.length = r.points.length :=
  update_rope_points_length r s

lemma Rope.update_len_prev (r : Rope) (s : ℤ) :
    (r.update s).prev_points.length = r.prev_points.length :=
  update_rope_prev_length r s

lemma substepCycle_points_length (input : FrameInput) (t : V2) (s : ℤ) (d : ℝ) (m : Model) :
    (substepCycle input t s d m).rope.points.length = m.rope.points.length := by
  simp only [substepCycle]
  rw [check_collisions_points_length]
  split
  · split
    · rw [List.length_set, Rope.update_len_points]
    · rw [Rope.update_len_points]
  · rw [Rope.update_len_points]

lemma substepCycle_prev_length (input : FrameInput) (t : V2) (s : ℤ) (d : ℝ) (m : Model) :
    (substepCycle input t s d m).rope.prev_points.length = m.rope.prev_points.length := by
  simp only [substepCycle]
  rw [check_collisions_prev]
  split
  · split
    · exact Rope.update_len_prev _ _
    · exact Rope.update_len_prev _ _
  · exact Rope.update_len_prev _ _

lemma iterate_substepCycle_lengths (input : FrameInput) (t : V2) (s : ℤ) (d : ℝ) (n : ℕ) :
    ∀ m : Model, ((substepCycle input t s d)^[n] m).rope.points.length = m.rope.points.length ∧
      ((substepCycle input t s d)^[n] m).rope.prev_points.length =
        m.rope.prev_points.length := by
  induction n with
  | zero => intro m; exact ⟨rfl, rfl⟩
  | succ n ih =>
    intro m
    rw [Function.iterate_succ_apply]
    exact ⟨((ih _).1).trans (substepCycle_points_length input t s d m),
      ((ih _).2).trans (substepCycle_prev_length input t s d m)⟩

lemma spawn_enemies_rope (input : FrameInput) (m : Model) :
    (spawn_enemies input m).rope = m.rope := by
  simp only [spawn_enemies]
  split <;> rfl

lemma despawn_enemies_rope (win : RectR) (m : Model) :
    (despawn_enemies win m).rope = m.rope := rfl

lemma update_points_length (input : FrameInput) (m : Model) :
    (update input m).rope.points.length = m.rope.points.length := by
  simp only [update]
  rw [despawn_enemies_rope, spawn_enemies_rope]
  exact (iterate_substepCycle_lengths _ _ _ _ _ _).1

lemma update_prev_length (input : FrameInput) (m : Model) :
    (update input m).rope.prev_points.length = m.rope.prev_points.length := by
  simp only [update]
  rw [despawn_enemies_rope, spawn_enemies_rope]
  exact (iterate_substepCycle_lengths _ _ _ _ _ _).2

lemma Rope.new_points_length (start end_ : V2) (count : ℕ) :
    (Rope.new start end_ count).points.length = count := by
  simp only [Rope.new]
  rw [List.length_map, List.length_range]

lemma Rope.new_prev_length (start end_ : V2) (count : ℕ) :
    (Rope.new start end_ count).prev_points.length = count := by
  simp only [Rope.new]
  rw [List.length_map, List.length_range]

/-- C10: every per-frame operation (Verlet integration plus relaxation,
pure relaxation, the substep cycle including the drag lerp, collision
resolution, and the whole frame update) preserves the number of rope
joints and the length of `prev_points`; `Rope::new` creates `count`
joints, and the initial model fixes the count at 12. -/
theorem joint_count_fixed :
    (∀ (r : Rope) (s : ℤ), (r.update_rope s).points.length = r.points.length ∧
      (r.update_rope s).prev_points.length = r.prev_points.length) ∧
    (∀ r : Rope, (Rope.constrain_points r).points.length = r.points.length ∧
      (Rope.constrain_points r).prev_points.length = r.prev_points.length) ∧
    (∀ (r : Rope) (es : List Enemy) (s : ℤ),
      (check_collisions r es s).1.points.length = r.points.length ∧
      (check_collisions r es s).1.prev_points.length = r.prev_points.length) ∧
    (∀ (input : FrameInput) (t : V2) (s : ℤ) (d : ℝ) (m : Model),
      (substepCycle input t s d m).rope.points.length = m.rope.points.length ∧
      (substepCycle input t s d m).rope.prev_points.length = m.rope.prev_points.length) ∧
    (∀ (input : FrameInput) (m : Model),
      (update input m).rope.points.length = m.rope.points.length ∧
      (update input m).rope.prev_points.length = m.rope.prev_points.length) ∧
    (∀ (start end_ : V2) (count : ℕ), (Rope.new start end_ count).points.length = count ∧
      (Rope.new start end_ count).prev_points.length = count) ∧
    model.rope.points.length = 12 ∧ model.rope.prev_points.length = 12 := by
  refine ⟨fun r s => ⟨update_rope_points_length r s, update_rope_prev_length r s⟩,
    fun r => ⟨constrain_points_points_length r, by rw [constrain_points_prev]⟩,
    fun r es s => ⟨check_collisions_points_length r es s, by rw [check_collisions_prev]⟩,
    fun input t s d m => ⟨substepCycle_points_length input t s d m,
      substepCycle_prev_length input t s d m⟩,
    fun input m => ⟨update_points_length input m, update_prev_length input m⟩,
    fun start end_ count => ⟨Rope.new_points_length start end_ count,
      Rope.new_prev_length start end_ count⟩,
    Rope.new_points_length _ _ 12, Rope.new_prev_length _ _ 12⟩

@[simp] lemma V2.sub_mk (a b c d : ℝ) : (V2.mk a b) - (V2.mk c d) = ⟨a - c, b - d⟩ := rfl

@[simp] lemma V2.add_mk (a b c d : ℝ) : (V2.mk a b) + (V2.mk c d) = ⟨a + c, b + d⟩ := rfl

@[simp] lemma V2.smul_mk (t a b : ℝ) : t • (V2.mk a b) = ⟨t * a, t * b⟩ := rfl

@[simp] lemma V2.zero_def : (0 : V2) = ⟨0, 0⟩ := rfl

lemma V2.len_mk (a b : ℝ) : V2.len ⟨a, b⟩ = Real.sqrt (a ^ 2 + b ^ 2) := rfl

@[simp] lemma V2.len_mk_zero (d : ℝ) : V2.len ⟨d, 0⟩ = |d| := by
  rw [V2.len_mk]
  norm_num [Real.sqrt_sq_eq_abs]

lemma V2.normalize_mk (a b : ℝ) :
    V2.normalize ⟨a, b⟩ = ⟨a / V2.len ⟨a, b⟩, b / V2.len ⟨a, b⟩⟩ := rfl

@[simp] lemma V2.normalize_mk_zero (d : ℝ) : V2.normalize ⟨d, 0⟩ = ⟨d / |d|, 0⟩ := by
  rw [V2.normalize_mk, V2.len_mk_zero]
  norm_num

lemma V2.dist_mk (ax ay bx by_ : ℝ) :
    V2.dist ⟨ax, ay⟩ ⟨bx, by_⟩ = Real.sqrt ((ax - bx) ^ 2 + (ay - by_) ^ 2) := rfl

lemma V2.len_eq_zero_iff (v : V2) : v.len = 0 ↔ v = 0 := by
  unfold V2.len
  constructor
  · intro h
    have h2 : v.x ^ 2 + v.y ^ 2 ≤ 0 := Real.sqrt_eq_zero'.mp h
    have hx : v.x = 0 := by nlinarith [sq_nonneg v.x, sq_nonneg v.y]
    have hy : v.y = 0 := by nlinarith [sq_nonneg v.x, sq_nonneg v.y]
    ext
    · rw [hx]; rfl
    · rw [hy]; rfl
  · intro h
    rw [h]
    norm_num

lemma V2.len_pos (v : V2) (h : v ≠ 0) : 0 < v.len :=
  lt_of_le_of_ne (V2.len_nonneg v) fun h0 => h ((V2.len_eq_zero_iff v).mp h0.symm)

lemma V2.normalize_eq_smul (v : V2) : v.normalize = (1 / v.len) • v := by
  unfold V2.normalize
  ext
  · rw [V2.smul_x, V2.mk_x]; ring
  · rw [V2.smul_y, V2.mk_y]; ring

lemma V2.len_smul (t : ℝ) (v : V2) : (t • v).len = |t| * v.len := by
  unfold V2.len
  rw [V2.smul_x, V2.smul_y]
  have h : (t * v.x) ^ 2 + (t * v.y) ^ 2 = t ^ 2 * (v.x ^ 2 + v.y ^ 2) := by ring
  rw [h, Real.sqrt_mul (sq_nonneg t), Real.sqrt_sq_eq_abs]

lemma V2.len_normalize (v : V2) (h : v ≠ 0) : v.normalize.len = 1 := by
  rw [V2.normalize_eq_smul, V2.len_smul,
    abs_of_nonneg (div_nonneg zero_le_one (V2.len_nonneg v)), one_div,
    inv_mul_cancel₀ (ne_of_gt (V2.len_pos v h))]

lemma constrainPass_two_points :
    constrainPass 2 [⟨0, 0⟩, ⟨3, 0⟩] = [⟨0, 0⟩, ⟨3 + (2 - 3) / 1.2 * (3 / |3|), 0⟩] := by
  unfold constrainPass constrainPair
  norm_num [List.range_succ]

lemma constrainPassSpec_two_points :
    constrainPassSpec 2 [⟨0, 0⟩, ⟨3, 0⟩] =
      [⟨0, 0⟩, ⟨3 + 0.5 * ((2 - 3) / 1.2 * (3 / |3|)), 0⟩] := by
  unfold constrainPassSpec constrainPairSpec
  norm_num [List.range_succ]

/-- C3 counterexample: on the two-joint chain `[(0,0), (3,0)]` with rest
length 2, the code's relaxation pass moves joint 1 by the FULL corrective
offset, not by half of it as the claim states: the two passes disagree. -/
theorem constrain_half_distribution_false :
    constrainPass 2 [⟨0, 0⟩, ⟨3, 0⟩] ≠ constrainPassSpec 2 [⟨0, 0⟩, ⟨3, 0⟩] := by
  rw [constrainPass_two_points, constrainPassSpec_two_points]
  intro h
  have hx := congrArg V2.x (List.head_eq_of_cons_eq (List.tail_eq_of_cons_eq h))
  rw [V2.mk_x, V2.mk_x] at hx
  norm_num at hx

/-- C3 (amended): in every relaxation pass, for each adjacent pair
`(i, i+1)` with non-coincident positions, the code subtracts the FULL
corrective offset `delta.normalized() * (difference / 1.2)` from the
lower-index joint (unless that joint is the anchor at index 0, which is
never corrected) and adds the FULL offset to the higher-index joint;
all other joints are untouched by that pair's step. -/
theorem constrain_pair_full_correction (L : ℝ) (pts : List V2) (i : ℕ)
    (hlen : i + 1 < pts.length)
    (hne : pts.getD (i + 1) 0 - pts.getD i 0 ≠ 0) :
    (constrainPair L pts i)[i]? =
      (if i = 0 then pts[0]?
       else some (pts.getD i 0 -
         ((L - (pts.getD (i + 1) 0 - pts.getD i 0).len) / 1.2) •
           (pts.getD (i + 1) 0 - pts.getD i 0).normalize)) ∧
    (constrainPair L pts i)[i + 1]? =
      some (pts.getD (i + 1) 0 +
        ((L - (pts.getD (i + 1) 0 - pts.getD i 0).len) / 1.2) •
          (pts.getD (i + 1) 0 - pts.getD i 0).normalize) ∧
    ∀ j, j ≠ i → j ≠ i + 1 → (constrainPair L pts i)[j]? = pts[j]? := by
  have hi : i < pts.length := by omega
  simp only [constrainPair]
  by_cases h0 : i = 0
  · subst h0
    rw [if_neg fun hn => hn rfl]
    refine ⟨?_, ?_, ?_⟩
    · rw [List.getElem?_set_ne (show (0 : ℕ) + 1 ≠ 0 by omega), if_pos rfl]
    · rw [List.getElem?_set_self hlen]
    · intro j hji hji1
      rw [List.getElem?_set_ne fun h => hji1 h.symm]
  · rw [if_pos h0]
    refine ⟨?_, ?_, ?_⟩
    · rw [List.getElem?_set_ne (by omega : i + 1 ≠ i),
        List.getElem?_set_self hi, if_neg h0]
    · rw [List.getElem?_set_self (by rw [List.length_set]; exact hlen)]
    · intro j hji hji1
      rw [List.getElem?_set_ne fun h => hji1 h.symm,
        List.getElem?_set_ne fun h => hji h.symm]

/-- Witness for the amended C3 theorem at the chain
`[(0,0), (3,0), (7,0)]`, rest length 2, pair `(1, 2)`. -/
theorem constrain_pair_full_correction_witness :
    1 + 1 < ([⟨0, 0⟩, ⟨3, 0⟩, ⟨7, 0⟩] : List V2).length ∧
    (constrainPair 2 [⟨0, 0⟩, ⟨3, 0⟩, ⟨7, 0⟩] 1)[1 + 1]? =
      some (([⟨0, 0⟩, ⟨3, 0⟩, ⟨7, 0⟩] : List V2).getD 2 0 +
        ((2 - (([⟨0, 0⟩, ⟨3, 0⟩, ⟨7, 0⟩] : List V2).getD 2 0 -
          ([⟨0, 0⟩, ⟨3, 0⟩, ⟨7, 0⟩] : List V2).getD 1 0).len) / 1.2) •
          (([⟨0, 0⟩, ⟨3, 0⟩, ⟨7, 0⟩] : List V2).getD 2 0 -
            ([⟨0, 0⟩, ⟨3, 0⟩, ⟨7, 0⟩] : List V2).getD 1 0).normalize) := by
  have hne : ([⟨0, 0⟩, ⟨3, 0⟩, ⟨7, 0⟩] : List V2).getD 2 0 -
      ([⟨0, 0⟩, ⟨3, 0⟩, ⟨7, 0⟩] : List V2).getD 1 0 ≠ 0 := by
    intro h
    have hx := congrArg V2.x h
    norm_num at hx
  exact ⟨by norm_num,
    (constrain_pair_full_correction 2 [⟨0, 0⟩, ⟨3, 0⟩, ⟨7, 0⟩] 1 (by norm_num) hne).2.1⟩

lemma getD_set_of_ne {α : Type*} (l : List α) (i j : ℕ) (a d : α) (h : i ≠ j) :
    (l.set i a).getD j d = l.getD j d := by
  simp [List.getD, List.getElem?_set_ne h]

lemma getD_set_eq_of_lt {α : Type*} (l : List α) (i : ℕ) (a d : α) (h : i < l.length) :
    (l.set i a).getD i d = a := by
  simp [List.getD, List.getElem?_set_self h]

@[simp] lemma V2.normalize_x (v : V2) : v.normalize.x = v.x / v.len := rfl

@[simp] lemma V2.normalize_y (v : V2) : v.normalize.y = v.y / v.len := rfl

lemma pairStep_fires (F : ℝ) (es : List Enemy) (i j : ℕ)
    (h : V2.dist (es.getD i default).position (es.getD j default).position <
      (es.getD i default).radius + (es.getD j default).radius) :
    pairStep F es i j =
      (es.set i { es.getD i default with position := (es.getD i default).position +
        ((((es.getD i default).radius + (es.getD j default).radius -
          V2.dist (es.getD i default).position (es.getD j default).position) / F) * 0.5) •
        ((es.getD i default).position - (es.getD j default).position).normalize }).set j
        { es.getD j default with position := (es.getD j default).position -
          ((((es.getD i default).radius + (es.getD j default).radius -
            V2.dist (es.getD i default).position (es.getD j default).position) / F) * 0.5) •
          ((es.getD i default).position - (es.getD j default).position).normalize } := by
  simp only [pairStep]
  rw [if_pos h]

/-- C5: for an unordered pair of in-range entity indices whose distance
`d` satisfies `0 < d < r_i + r_j`, the pair push of `check_collisions`
applies exactly opposite displacements to the two entities, each of
magnitude `(r_i + r_j - d) / substeps / 2`, and the post-push distance is
strictly greater than `d`. -/
theorem entity_pair_symmetric_push (es : List Enemy) (i j : ℕ) (s : ℤ)
    (hi : i < es.length) (hj : j < es.length) (hij : i ≠ j)
    (hd : 0 < V2.dist (es.getD i default).position (es.getD j default).position)
    (hlt : V2.dist (es.getD i default).position (es.getD j default).position <
      (es.getD i default).radius + (es.getD j default).radius)
    (hs : 0 < s) :
    ((pairStep (s : ℝ) es i j).getD i default).position - (es.getD i default).position =
      -(((pairStep (s : ℝ) es i j).getD j default).position -
        (es.getD j default).position) ∧
    (((pairStep (s : ℝ) es i j).getD i default).position -
        (es.getD i default).position).len =
      ((es.getD i default).radius + (es.getD j default).radius -
        V2.dist (es.getD i default).position (es.getD j default).position) / (s : ℝ) / 2 ∧
    V2.dist ((pairStep (s : ℝ) es i j).getD i default).position
        ((pairStep (s : ℝ) es i j).getD j default).position >
      V2.dist (es.getD i default).position (es.getD j default).position := by
  have hsR : (0 : ℝ) < (s : ℝ) := by exact_mod_cast hs
  have hsub : (es.getD i default).position - (es.getD j default).position ≠ 0 := by
    intro h
    have h0 : V2.dist (es.getD i default).position (es.getD j default).position = 0 := by
      show ((es.getD i default).position - (es.getD j default).position).len = 0
      rw [h]
      exact (V2.len_eq_zero_iff 0).mpr rfl
    linarith
  have hL : ((es.getD i default).position - (es.getD j default).position).len ≠ 0 :=
    fun h => hsub ((V2.len_eq_zero_iff _).mp h)
  have hLpos : 0 < ((es.getD i default).position - (es.getD j default).position).len :=
    V2.len_pos _ hsub
  have hdist : V2.dist (es.getD i default).position (es.getD j default).position =
      ((es.getD i default).position - (es.getD j default).position).len := rfl
  have hovpos : 0 < ((es.getD i default).radius + (es.getD j default).radius -
      V2.dist (es.getD i default).position (es.getD j default).position) / (s : ℝ) :=
    div_pos (by linarith) hsR
  rw [pairStep_fires (s : ℝ) es i j hlt]
  rw [getD_set_of_ne _ j i _ _ fun h => hij h.symm,
    getD_set_eq_of_lt _ i _ _ hi,
    getD_set_eq_of_lt _ j _ _ (by rw [List.length_set]; exact hj)]
  dsimp only
  refine ⟨?_, ?_, ?_⟩
  · ext
    · simp only [V2.sub_x, V2.add_x, V2.neg_x]; ring
    · simp only [V2.sub_y, V2.add_y, V2.neg_y]; ring
  · have hK : ((es.getD i default).position +
        ((((es.getD i default).radius + (es.getD j default).radius -
          V2.dist (es.getD i default).position (es.getD j default).position) / (s : ℝ)) * 0.5) •
        ((es.getD i default).position - (es.getD j default).position).normalize) -
        (es.getD i default).position =
        ((((es.getD i default).radius + (es.getD j default).radius -
          V2.dist (es.getD i default).position (es.getD j default).position) / (s : ℝ)) * 0.5) •
        ((es.getD i default).position - (es.getD j default).position).normalize := by
      ext
      · simp only [V2.sub_x, V2.add_x]; ring
      · simp only [V2.sub_y, V2.add_y]; ring
    rw [hK, V2.len_smul, V2.len_normalize _ hsub,
      abs_of_nonneg (by positivity), mul_one]
    ring
  · have key : ((es.getD i default).position +
        ((((es.getD i default).radius + (es.getD j default).radius -
          V2.dist (es.getD i default).position (es.getD j default).position) / (s : ℝ)) * 0.5) •
        ((es.getD i default).position - (es.getD j default).position).normalize) -
        ((es.getD j default).position -
        ((((es.getD i default).radius + (es.getD j default).radius -
          V2.dist (es.getD i default).position (es.getD j default).position) / (s : ℝ)) * 0.5) •
        ((es.getD i default).position - (es.getD j default).position).normalize) =
        (1 + (((es.getD i default).radius + (es.getD j default).radius -
          V2.dist (es.getD i default).position (es.getD j default).position) / (s : ℝ)) /
          ((es.getD i default).position - (es.getD j default).position).len) •
        ((es.getD i default).position - (es.getD j default).position) := by
      ext
      · simp only [V2.sub_x, V2.add_x, V2.smul_x, V2.normalize_x, hdist]
        field_simp
        ring
      · simp only [V2.sub_y, V2.add_y, V2.smul_y, V2.normalize_y, hdist]
        field_simp
        ring
    show V2.dist _ _ > _
    rw [V2.dist, key, V2.len_smul, abs_of_pos (by positivity), hdist, add_mul, one_mul,
      div_mul_cancel₀ _ hL]
    rw [hdist] at hovpos
    linarith

/-- Witness for C5: two radius-5 enemies at distance 8 with `substeps = 5`
strictly separate. -/
theorem entity_pair_symmetric_push_witness :
    V2.dist ((pairStep ((5 : ℤ) : ℝ)
        [Enemy.mk ⟨0, 0⟩ ⟨0, 0⟩ 5 ⟨0, 0, 0, 0⟩, Enemy.mk ⟨8, 0⟩ ⟨8, 0⟩ 5 ⟨0, 0, 0, 0⟩]
        0 1).getD 0 default).position
      ((pairStep ((5 : ℤ) : ℝ)
        [Enemy.mk ⟨0, 0⟩ ⟨0, 0⟩ 5 ⟨0, 0, 0, 0⟩, Enemy.mk ⟨8, 0⟩ ⟨8, 0⟩ 5 ⟨0, 0, 0, 0⟩]
        0 1).getD 1 default).position >
    V2.dist (([Enemy.mk ⟨0, 0⟩ ⟨0, 0⟩ 5 ⟨0, 0, 0, 0⟩, Enemy.mk ⟨8, 0⟩ ⟨8, 0⟩ 5 ⟨0, 0, 0, 0⟩] :
        List Enemy).getD 0 default).position
      (([Enemy.mk ⟨0, 0⟩ ⟨0, 0⟩ 5 ⟨0, 0, 0, 0⟩, Enemy.mk ⟨8, 0⟩ ⟨8, 0⟩ 5 ⟨0, 0, 0, 0⟩] :
        List Enemy).getD 1 default).position := by
  have hd8 : V2.dist (⟨0, 0⟩ : V2) ⟨8, 0⟩ = 8 := by
    rw [V2.dist_mk]
    norm_num [Real.sqrt_eq_iff_eq_sq]
  refine (entity_pair_symmetric_push _ 0 1 5 (by norm_num) (by norm_num) (by norm_num)
    ?_ ?_ (by norm_num)).2.2
  · show (0 : ℝ) < V2.dist ⟨0, 0⟩ ⟨8, 0⟩
    rw [hd8]; norm_num
  · show V2.dist (⟨0, 0⟩ : V2) ⟨8, 0⟩ < 5 + 5
    rw [hd8]; norm_num

lemma foldl_enemyRopeStep_fst (mid : List V2) (t L F : ℝ) :
    ∀ (es : List Enemy) (pts : List V2) (acc : List Enemy),
      (es.foldl (enemyRopeStep mid t L F) (pts, acc)).1 =
        es.foldl (fun p e => ((List.range p.length).foldl (jointStep t F) (p, e)).1) pts := by
  intro es
  induction es with
  | nil => intro pts acc; rfl
  | cons e tl ih =>
    intro pts acc
    rw [List.foldl_cons, List.foldl_cons]
    exact ih _ _

/-- C7: the rope produced by `check_collisions` is fully determined by the
enemy-vs-joint loops alone — the midpoint loop (and the enemy-pair loop)
changes no rope joint — and the midpoint step fires exactly below the
collision radius `enemy.radius + segment_length / 2`, moving only the
enemy's position. -/
theorem midpoint_collision_entity_only :
    (∀ (r : Rope) (es : List Enemy) (s : ℤ),
      (check_collisions r es s).1 =
        { r with points := (es.foldl
            (fun p e => ((List.range p.length).foldl (jointStep r.thickness (s : ℝ)) (p, e)).1)
            r.points) }) ∧
    (∀ (L F : ℝ) (e : Enemy) (m : V2),
      midStep L F e m =
        { e with position :=
            if V2.dist e.position m < e.radius + L / 2 then
              e.position + (((e.radius + L / 2 - V2.dist e.position m) / F) * 0.5) •
                (e.position - m).normalize
            else e.position }) := by
  constructor
  · intro r es s
    simp only [check_collisions]
    rw [foldl_enemyRopeStep_fst]
  · intro L F e m
    by_cases h : V2.dist e.position m < e.radius + L / 2
    · simp only [midStep]
      rw [if_pos h, if_pos h]
    · simp only [midStep]
      rw [if_neg h, if_neg h]

lemma keepList_length_le (win : RectR) (margin : ℝ) :
    ∀ es : List Enemy, (keepList win margin es).length ≤ es.length := by
  intro es
  induction es with
  | nil => exact le_refl 0
  | cons e rest ih =>
    simp only [keepList]
    split
    · exact ih.trans (Nat.le_succ _)
    · exact Nat.succ_le_succ ih

lemma despawnGo_eq (win : RectR) (margin : ℝ) :
    ∀ (es : List Enemy) (sc : ℤ),
      despawnGo win margin es sc =
        (keepList win margin es,
          sc + ((es.length : ℤ) - ((keepList win margin es).length : ℤ))) := by
  intro es
  induction es with
  | nil => intro sc; simp [despawnGo, keepList]
  | cons e rest ih =>
    intro sc
    simp only [despawnGo, keepList]
    by_cases h : enemyOut win margin e
    · rw [if_pos h, if_pos h, ih]
      refine Prod.ext rfl ?_
      simp only [List.length_cons, keepList, if_pos h]
      push_cast
      ring
    · rw [if_neg h, if_neg h, ih]
      refine Prod.ext rfl ?_
      simp only [List.length_cons, keepList, if_neg h]
      push_cast
      ring

lemma mem_keepList_iff (win : RectR) (margin : ℝ) :
    ∀ (es : List Enemy) (e : Enemy),
      e ∈ keepList win margin es ↔ e ∈ es ∧ ¬ enemyOut win margin e := by
  intro es
  induction es with
  | nil => intro e; simp [keepList]
  | cons a rest ih =>
    intro e
    simp only [keepList]
    by_cases h : enemyOut win margin a
    · rw [if_pos h, ih]
      constructor
      · rintro ⟨he, hn⟩
        exact ⟨List.mem_cons_of_mem a he, hn⟩
      · rintro ⟨he, hn⟩
        rcases List.mem_cons.mp he with rfl | he2
        · exact absurd h hn
        · exact ⟨he2, hn⟩
    · rw [if_neg h]
      constructor
      · intro he
        rcases List.mem_cons.mp he with rfl | he2
        · exact ⟨List.mem_cons_self _ _, h⟩
        · rcases (ih e).mp he2 with ⟨h1, h2⟩
          exact ⟨List.mem_cons_of_mem a h1, h2⟩
      · rintro ⟨he, hn⟩
        rcases List.mem_cons.mp he with rfl | he2
        · exact List.mem_cons_self _ _
        · exact List.mem_cons_of_mem a ((ih e).mpr ⟨he2, hn⟩)

lemma circleMeets_not_out (win : RectR) (margin : ℝ) (e : Enemy)
    (hr : 0 ≤ e.radius)
    (hm : circleMeets e.position e.radius (win.expand margin)) :
    ¬ enemyOut win margin e := by
  obtain ⟨p, hp, hin⟩ := hm
  obtain ⟨h1, h2, h3, h4⟩ := hin
  simp only [RectR.expand] at h1 h2 h3 h4
  intro hout
  rcases hout with h | h | h | h
  · nlinarith [sq_nonneg (p.y - e.position.y)]
  · nlinarith [sq_nonneg (p.y - e.position.y)]
  · nlinarith [sq_nonneg (p.x - e.position.x)]
  · nlinarith [sq_nonneg (p.x - e.position.x)]

/-- C4 counterexample: for the viewport `[-100,100]×[-100,100]` with
margin 50, the radius-5 enemy at the corner point `(154, 154)` has its
disc entirely outside the expanded viewport, yet the despawn loop RETAINS
it (its per-axis bounding-box test sees no separation), so despawn does
not remove every entity whose inflated circle lies entirely outside. -/
theorem despawn_entirely_outside_false :
    circleOutside ⟨154, 154⟩ 5 (RectR.expand ⟨-100, 100, -100, 100⟩ 50) ∧
    (despawnGo ⟨-100, 100, -100, 100⟩ 50
      [Enemy.mk ⟨154, 154⟩ ⟨154, 154⟩ 5 ⟨0, 0, 0, 0⟩] 0).1 =
      [Enemy.mk ⟨154, 154⟩ ⟨154, 154⟩ 5 ⟨0, 0, 0, 0⟩] := by
  constructor
  · intro p hp hin
    obtain ⟨h1, h2, h3, h4⟩ := hin
    simp only [RectR.expand, V2.mk_x, V2.mk_y] at h1 h2 h3 h4 hp
    have hx : (p.x - 154) ^ 2 ≥ 16 := by nlinarith
    have hy : (p.y - 154) ^ 2 ≥ 16 := by nlinarith
    linarith
  · have hnot : ¬ enemyOut ⟨-100, 100, -100, 100⟩ 50
        (Enemy.mk ⟨154, 154⟩ ⟨154, 154⟩ 5 ⟨0, 0, 0, 0⟩) := by
      unfold enemyOut
      push_neg
      norm_num
    simp only [despawnGo]
    rw [if_neg hnot]

/-- C4 (amended): the despawn loop removes exactly those entities whose
inflated BOUNDING BOX lies strictly beyond one side of the expanded
viewport (the `enemyOut` test), incrementing the score once per removal;
every entity whose inflated circle overlaps the expanded viewport is
retained; and the claim's two concrete cases hold: at viewport
`[-100,100]²` with margin 50, the radius-5 entity at `(160,0)` is removed
and the radius-5 entity at `(145,0)` is retained. -/
theorem despawn_bbox_characterization :
    (∀ (win : RectR) (margin : ℝ) (es : List Enemy) (sc : ℤ),
      despawnGo win margin es sc =
        (keepList win margin es,
          sc + ((es.length : ℤ) - ((keepList win margin es).length : ℤ)))) ∧
    (∀ (win : RectR) (margin : ℝ) (es : List Enemy) (e : Enemy),
      e ∈ keepList win margin es ↔ e ∈ es ∧ ¬ enemyOut win margin e) ∧
    (∀ (win : RectR) (margin : ℝ) (e : Enemy), 0 ≤ e.radius →
      circleMeets e.position e.radius (win.expand margin) → ¬ enemyOut win margin e) ∧
    (despawnGo ⟨-100, 100, -100, 100⟩ 50
        [Enemy.mk ⟨160, 0⟩ ⟨160, 0⟩ 5 ⟨0, 0, 0, 0⟩] 0 = ([], 1)) ∧
    (despawnGo ⟨-100, 100, -100, 100⟩ 50
        [Enemy.mk ⟨145, 0⟩ ⟨145, 0⟩ 5 ⟨0, 0, 0, 0⟩] 0 =
      ([Enemy.mk ⟨145, 0⟩ ⟨145, 0⟩ 5 ⟨0, 0, 0, 0⟩], 0)) := by
  refine ⟨despawnGo_eq, mem_keepList_iff, circleMeets_not_out, ?_, ?_⟩
  · have hout : enemyOut ⟨-100, 100, -100, 100⟩ 50
        (Enemy.mk ⟨160, 0⟩ ⟨160, 0⟩ 5 ⟨0, 0, 0, 0⟩) := by
      unfold enemyOut
      norm_num
    simp only [despawnGo]
    rw [if_pos hout]
    rfl
  · have hnot : ¬ enemyOut ⟨-100, 100, -100, 100⟩ 50
        (Enemy.mk ⟨145, 0⟩ ⟨145, 0⟩ 5 ⟨0, 0, 0, 0⟩) := by
      unfold enemyOut
      push_neg
      norm_num
    simp only [despawnGo]
    rw [if_neg hnot]

/-- Witness for the amended C4 theorem: the `(145,0)` entity's inflated
circle overlaps the expanded viewport, so the overlap-retention part
applies and it is not removed. -/
theorem despawn_bbox_characterization_witness :
    ¬ enemyOut ⟨-100, 100, -100, 100⟩ 50 (Enemy.mk ⟨145, 0⟩ ⟨145, 0⟩ 5 ⟨0, 0, 0, 0⟩) := by
  refine despawn_bbox_characterization.2.2.1 ⟨-100, 100, -100, 100⟩ 50
    (Enemy.mk ⟨145, 0⟩ ⟨145, 0⟩ 5 ⟨0, 0, 0, 0⟩) (by norm_num) ?_
  exact ⟨⟨145, 0⟩, by norm_num, by constructor <;> norm_num [RectR.expand]⟩

lemma substepCycle_score (input : FrameInput) (t : V2) (s : ℤ) (d : ℝ) (m : Model) :
    (substepCycle input t s d m).score = m.score := rfl

lemma substepCycle_spawn_delay (input : FrameInput) (t : V2) (s : ℤ) (d : ℝ) (m : Model) :
    (substepCycle input t s d m).spawn_delay = m.spawn_delay := rfl

lemma iterate_substepCycle_score (input : FrameInput) (t : V2) (s : ℤ) (d : ℝ) (n : ℕ) :
    ∀ m : Model, ((substepCycle input t s d)^[n] m).score = m.score := by
  induction n with
  | zero => intro m; rfl
  | succ n ih =>
    intro m
    rw [Function.iterate_succ_apply, ih, substepCycle_score]

lemma iterate_substepCycle_spawn_delay (input : FrameInput) (t : V2) (s : ℤ) (d : ℝ)
    (n : ℕ) : ∀ m : Model, ((substepCycle input t s d)^[n] m).spawn_delay = m.spawn_delay := by
  induction n with
  | zero => intro m; rfl
  | succ n ih =>
    intro m
    rw [Function.iterate_succ_apply, ih, substepCycle_spawn_delay]

lemma spawn_enemies_score (input : FrameInput) (m : Model) :
    (spawn_enemies input m).score = m.score := by
  simp only [spawn_enemies]
  split <;> rfl

lemma spawn_enemies_spawn_delay (input : FrameInput) (m : Model) :
    (spawn_enemies input m).spawn_delay = m.spawn_delay := by
  simp only [spawn_enemies]
  split <;> rfl

lemma update_score_despawn (input : FrameInput) (m : Model) :
    (update input m).score = (despawn_enemies input.win (frameBeforeDespawn input m)).score :=
  rfl

lemma update_enemies_despawn (input : FrameInput) (m : Model) :
    (update input m).enemies =
      (despawn_enemies input.win (frameBeforeDespawn input m)).enemies := rfl

lemma frameBeforeDespawn_score (input : FrameInput) (m : Model) :
    (frameBeforeDespawn input m).score = m.score := by
  simp only [frameBeforeDespawn]
  rw [spawn_enemies_score, iterate_substepCycle_score]

lemma despawn_enemies_score_eq (win : RectR) (m : Model) :
    (despawn_enemies win m).score =
      m.score + ((m.enemies.length : ℤ) - ((despawn_enemies win m).enemies.length : ℤ)) := by
  simp only [despawn_enemies]
  rw [despawnGo_eq]

lemma despawn_enemies_length_le (win : RectR) (m : Model) :
    (despawn_enemies win m).enemies.length ≤ m.enemies.length := by
  simp only [despawn_enemies]
  rw [despawnGo_eq]
  exact keepList_length_le _ _ _

/-- C8: per frame, the score increases exactly by the number of enemies
removed by the despawn pass (the difference between the enemy count just
before despawn and after it); hence it is monotonically non-decreasing,
and neither the substep cycles nor the spawn check touch the score. -/
theorem score_counts_despawns :
    (∀ (input : FrameInput) (m : Model),
      (update input m).score = m.score +
        (((frameBeforeDespawn input m).enemies.length : ℤ) -
          ((update input m).enemies.length : ℤ))) ∧
    (∀ (input : FrameInput) (m : Model), m.score ≤ (update input m).score) ∧
    (∀ (input : FrameInput) (t : V2) (s : ℤ) (d : ℝ) (m : Model),
      (substepCycle input t s d m).score = m.score) ∧
    (∀ (input : FrameInput) (m : Model), (spawn_enemies input m).score = m.score) ∧
    (∀ (win : RectR) (m : Model),
      (despawn_enemies win m).score = m.score +
        ((m.enemies.length : ℤ) - ((despawn_enemies win m).enemies.length : ℤ))) := by
  have h1 : ∀ (input : FrameInput) (m : Model),
      (update input m).score = m.score +
        (((frameBeforeDespawn input m).enemies.length : ℤ) -
          ((update input m).enemies.length : ℤ)) := by
    intro input m
    rw [update_score_despawn, update_enemies_despawn, despawn_enemies_score_eq,
      frameBeforeDespawn_score]
  refine ⟨h1, ?_, substepCycle_score, spawn_enemies_score, despawn_enemies_score_eq⟩
  intro input m
  rw [h1 input m]
  have hle : ((update input m).enemies.length : ℤ) ≤
      ((frameBeforeDespawn input m).enemies.length : ℤ) := by
    rw [update_enemies_despawn]
    exact_mod_cast despawn_enemies_length_le input.win (frameBeforeDespawn input m)
  linarith

lemma update_spawn_delay (input : FrameInput) (m : Model) :
    (update input m).spawn_delay = m.spawn_delay := by
  have h : (update input m).spawn_delay = (frameBeforeDespawn input m).spawn_delay := rfl
  rw [h]
  simp only [frameBeforeDespawn]
  rw [spawn_enemies_spawn_delay, iterate_substepCycle_spawn_delay]

/-- C9 (amended): `spawn_delay` is never modified by any frame update —
it stays exactly at its initial value 0.5, which is positive; so it is
trivially non-increasing and never reaches zero, but no decay (and no
clamping) ever happens. -/
theorem spawn_delay_constant :
    (∀ (input : FrameInput) (m : Model), (update input m).spawn_delay = m.spawn_delay) ∧
    model.spawn_delay = 0.5 ∧ (0 : ℝ) < model.spawn_delay := by
  refine ⟨update_spawn_delay, rfl, ?_⟩
  show (0 : ℝ) < 0.5
  norm_num

/-- C9 counterexample: a concrete frame update from the initial model
leaves `spawn_delay` exactly equal — it never strictly decreases, so the
controller does not decay it toward a floor. -/
theorem spawn_delay_never_decays :
    (update ⟨⟨0, 0⟩, ⟨-100, 100, -100, 100⟩, fun _ => 0⟩ model).spawn_delay =
      model.spawn_delay ∧
    ¬ ((update ⟨⟨0, 0⟩, ⟨-100, 100, -100, 100⟩, fun _ => 0⟩ model).spawn_delay <
      model.spawn_delay) := by
  have h := update_spawn_delay ⟨⟨0, 0⟩, ⟨-100, 100, -100, 100⟩, fun _ => 0⟩ model
  exact ⟨h, by rw [h]; exact lt_irrefl _⟩

lemma check_collisions_nil (r : Rope) (s : ℤ) : check_collisions r [] s = (r, []) := rfl

lemma substepCycle_no_enemies_no_drag (input : FrameInput) (t : V2) (s : ℤ) (d : ℝ)
    (m : Model) (he : m.enemies = []) (hd : m.is_dragging = false) :
    substepCycle input t s d m = { m with rope := m.rope.update s } := by
  simp [substepCycle, he, hd, check_collisions_nil]

lemma iterate_substepCycle_no_enemies (input : FrameInput) (t : V2) (s : ℤ) (d : ℝ) :
    ∀ (n : ℕ) (m : Model), m.enemies = [] → m.is_dragging = false →
      (substepCycle input t s d)^[n] m =
        { m with rope := (fun r : Rope => r.update s)^[n] m.rope } := by
  intro n
  induction n with
  | zero => intro m he hd; rfl
  | succ n ih =>
    intro m he hd
    rw [Function.iterate_succ_apply, substepCycle_no_enemies_no_drag input t s d m he hd,
      ih { m with rope := m.rope.update s } he hd]
    rfl

/-- C6: with no enemies and no drag active, the frame `update`'s effect
on the rope is exactly five identical integration-plus-relaxation cycles:
each cycle performs one Verlet pass over the non-anchor joints
(`verletPass`) followed by relaxation (five `constrain_points` calls) —
the frame is partitioned into `substeps = 5` cycles rather than one
integration step for the whole frame. -/
theorem frame_partitions_into_substep_cycles (input : FrameInput) (m : Model)
    (he : m.enemies = []) (hd : m.is_dragging = false) :
    (update input m).rope =
      (fun r : Rope => Rope.constrain_points^[5] (verletPass r))^[5] m.rope := by
  have hrope : (update input m).rope = (frameBeforeDespawn input m).rope := rfl
  rw [hrope]
  simp only [frameBeforeDespawn]
  rw [spawn_enemies_rope]
  rw [iterate_substepCycle_no_enemies input _ 5 _ ((5 : ℤ).toNat)
    { m with enemy_timer := m.enemy_timer + 0.01 } he hd]
  rfl

/-- Witness for C6 at the initial model (no enemies, not dragging). -/
theorem frame_partitions_witness :
    (update ⟨⟨0, 0⟩, ⟨-100, 100, -100, 100⟩, fun _ => 0⟩ model).rope =
      (fun r : Rope => Rope.constrain_points^[5] (verletPass r))^[5] model.rope :=
  frame_partitions_into_substep_cycles ⟨⟨0, 0⟩, ⟨-100, 100, -100, 100⟩, fun _ => 0⟩
    model rfl rfl

/-- C1 (code bug): with two enemies at exactly the same position, the
joint and midpoint phases of `check_collisions` leave the state
unchanged, the enemy-pair branch then FIRES (distance 0 < r_i + r_j)
with a zero-length separating vector, so the code evaluates `normalize`
of the zero vector: NaN in the f32 arithmetic of the real program, junk
0 in this real-number idealization (under which the positions come back
unchanged).  The fail-closed skip demanded by the claim does not exist
in the code. -/
theorem check_collisions_zero_normalize_fires :
    ((([eC1, eC1] : List Enemy).foldl
      (enemyRopeStep ropeC1.get_segment_midpoints ropeC1.thickness ropeC1.segment_length
        ((5 : ℤ) : ℝ)) (ropeC1.points, [])).2 = [eC1, eC1]) ∧
    pairIndices 2 = [(0, 1)] ∧
    V2.dist eC1.position eC1.position < eC1.radius + eC1.radius ∧
    eC1.position - eC1.position = 0 ∧
    (check_collisions ropeC1 [eC1, eC1] 5).2 = [eC1, eC1] := by
  have hmid : ropeC1.get_segment_midpoints = [⟨50, 0⟩] := by
    norm_num [Rope.get_segment_midpoints, ropeC1, List.range_succ, List.range_zero]
  have hA : (([eC1, eC1] : List Enemy).foldl
      (enemyRopeStep ropeC1.get_segment_midpoints ropeC1.thickness ropeC1.segment_length
        ((5 : ℤ) : ℝ)) (ropeC1.points, [])).2 = [eC1, eC1] := by
    rw [hmid]
    norm_num [enemyRopeStep, jointStep, midStep, V2.dist, ropeC1, eC1, List.range_succ]
  refine ⟨hA, rfl, ?_, ?_, ?_⟩
  · norm_num [V2.dist, eC1]
  · show eC1.position - eC1.position = 0
    norm_num [eC1]
    rfl
  · simp only [check_collisions]
    rw [hA]
    norm_num [pairStep, pairIndices, V2.dist, eC1, List.range_succ]

